import Mathlib

/-!
Verification of the causal-inference core of AITIA-PM (`Inference.py`).

The event log is shallowly embedded as a list of (case, observation,
timestamp) rows; case identifiers and observation labels are coded as
naturals, timestamps as integers.  Python real-number division on the
small integer counts involved is modelled exactly by division in ℚ.
-/

/-- One row of the source table: (case:concept:name, observation, time:timestamp). -/
structure Event where
  case : ℕ
  obs  : ℕ
  time : ℤ
deriving DecidableEq, Repr

/-- The in-memory event log, in source row order. -/
abbrev Log := List Event

/-- The distinct cases in which observation `o` occurs, in the order pandas
`unique` reports them up to duplicate removal; only the length and the
membership of this list are ever used. -/
def casesWith (log : Log) (o : ℕ) : List ℕ :=
  ((log.filter (fun ev => ev.obs = o)).map (fun ev => ev.case)).dedup

/-- `self.traces`: the number of distinct case ids in the whole log
(`len(source[case].unique())` in `populate_vars`). -/
def numTraces (log : Log) : ℕ :=
  ((log.map (fun ev => ev.case)).dedup).length

/-- The timestamps at which observation `o` occurs in case `c`, in row order
(`time_values[obs_values == o]` of the trace of `c`). -/
def timesOf (log : Log) (o : ℕ) (c : ℕ) : List ℤ :=
  (log.filter (fun ev => ev.obs = o ∧ ev.case = c)).map (fun ev => ev.time)

/-- Whether observation `o` occurs in case `c` (`np.any(obs_values == o)`). -/
def hasObs (log : Log) (o : ℕ) (c : ℕ) : Bool :=
  !(log.filter (fun ev => ev.obs = o ∧ ev.case = c)).isEmpty

/-- The weak-precedence check of `test_cause_effect_pair`:
`np.min(c_times) <= np.max(e_times)` inside case `c`; false when either
observation is absent from the case (numpy would reject an empty min/max,
but the code only evaluates it when both are present). -/
def minCauseLeMaxEffect (log : Log) (cause effect : ℕ) (c : ℕ) : Bool :=
  match (timesOf log cause c).min?, (timesOf log effect c).max? with
  | some m, some M => m ≤ M
  | _, _ => false

/-- `test_cause_effect_pair`: returns `(c_before_e, len(c_traces), len(e_traces))`.
The loop over the (set) intersection of c-cases and e-cases counts the cases
where effect occurs in the restricted trace and the earliest cause timestamp
does not exceed the latest effect timestamp. -/
def test_cause_effect_pair (log : Log) (cause effect : ℕ) : ℕ × ℕ × ℕ :=
  let c_traces := casesWith log cause
  let e_traces := casesWith log effect
  let c_e_cases := c_traces.filter (fun c => c ∈ e_traces)
  let c_before_e :=
    (c_e_cases.filter (fun c => hasObs log effect c && minCauseLeMaxEffect log cause effect c)).length
  (c_before_e, c_traces.length, e_traces.length)

/-- `is_prima_facie`: false when `c_trues == 0`, otherwise the positive
statistical relevance inequality `c_and_e / c_trues > e_trues / traces`. -/
def is_prima_facie (traces : ℕ) (c_and_e c_trues e_trues : ℕ) : Bool :=
  if c_trues = 0 then false
  else decide ((c_and_e : ℚ) / (c_trues : ℚ) > (e_trues : ℚ) / (traces : ℚ))

/-- One hypothesis evaluation of `test_for_prima_facie`: the counts of
`test_cause_effect_pair` fed to `is_prima_facie` with the whole-log trace
count. -/
def prima_facie_accepts (log : Log) (cause effect : ℕ) : Bool :=
  is_prima_facie (numTraces log) (test_cause_effect_pair log cause effect).1
    (test_cause_effect_pair log cause effect).2.1
    (test_cause_effect_pair log cause effect).2.2

/-- The case ids containing observation `o`, as a finite set (specification
side, for comparison with the list computations of the code). -/
def caseSet (log : Log) (o : ℕ) : Finset ℕ :=
  ((log.filter (fun ev => ev.obs = o)).map (fun ev => ev.case)).toFinset

/-- Specification-side count for C2: the number of cases in the intersection
of the cause-cases and the effect-cases whose earliest cause timestamp is at
most the latest effect timestamp. -/
def specCAndE (log : Log) (cause effect : ℕ) : ℕ :=
  ((caseSet log cause ∩ caseSet log effect).filter
    (fun c => minCauseLeMaxEffect log cause effect c = true)).card

theorem mem_casesWith {log : Log} {o c : ℕ} :
    c ∈ casesWith log o ↔ c ∈ caseSet log o := by
  simp [casesWith, caseSet, List.mem_dedup]

theorem nodup_casesWith (log : Log) (o : ℕ) : (casesWith log o).Nodup :=
  List.nodup_dedup _

theorem hasObs_iff (log : Log) (o c : ℕ) : hasObs log o c = true ↔ c ∈ caseSet log o := by
  simp [hasObs, caseSet, List.isEmpty_iff, List.eq_nil_iff_forall_not_mem, List.mem_filter]
  tauto

theorem is_prima_facie_eq_true_iff (traces c_and_e c_trues e_trues : ℕ) :
    is_prima_facie traces c_and_e c_trues e_trues = true ↔
      0 < c_trues ∧ (e_trues : ℚ) / (traces : ℚ) < (c_and_e : ℚ) / (c_trues : ℚ) := by
  unfold is_prima_facie
  by_cases h : c_trues = 0
  · simp [h]
  · simp [h, Nat.pos_of_ne_zero h, gt_iff_lt]

theorem numTraces_pos_of_casesWith (log : Log) (cause : ℕ)
    (h : 0 < (casesWith log cause).length) : 1 ≤ numTraces log := by
  obtain ⟨c, hc⟩ := List.exists_mem_of_length_pos h
  simp [casesWith, List.mem_dedup, List.mem_map, List.mem_filter] at hc
  obtain ⟨ev, ⟨hev, hobs⟩, hcase⟩ := hc
  have h1 : ev.case ∈ log.map (fun ev => ev.case) := List.mem_map_of_mem _ hev
  have h2 : ev.case ∈ (log.map (fun ev => ev.case)).dedup := List.mem_dedup.mpr h1
  have h3 := List.length_pos_of_mem h2
  simpa [numTraces] using h3

/-- C1: a hypothesis is accepted by the prima-facie test iff `c_trues > 0`
and `c_and_e / c_trues > e_trues / total_traces`, where `total_traces` is
the number of distinct case ids of the whole log; and for every `c_and_e`
and `e_trues`, acceptance is false whenever `c_trues = 0`. -/
theorem prima_facie_acceptance_iff :
    (∀ (log : Log) (cause effect : ℕ),
      prima_facie_accepts log cause effect = true ↔
        0 < (test_cause_effect_pair log cause effect).2.1 ∧
          ((test_cause_effect_pair log cause effect).2.2 : ℚ) / (numTraces log : ℚ) <
            ((test_cause_effect_pair log cause effect).1 : ℚ) /
              ((test_cause_effect_pair log cause effect).2.1 : ℚ)) ∧
    (∀ (traces c_and_e e_trues : ℕ), is_prima_facie traces c_and_e 0 e_trues = false) := by
  constructor
  · intro log cause effect
    exact is_prima_facie_eq_true_iff _ _ _ _
  · intro traces c_and_e e_trues
    simp [is_prima_facie]

/-- C2: the count `c_and_e` returned by `test_cause_effect_pair` equals the
number of cases in the intersection of the cause-cases and the effect-cases
whose earliest cause timestamp is at most the latest effect timestamp (weak
precedence). -/
theorem c_and_e_counts_weak_precedence (log : Log) (cause effect : ℕ) :
    (test_cause_effect_pair log cause effect).1 = specCAndE log cause effect := by
  have hnd2 : (((casesWith log cause).filter (fun c => c ∈ casesWith log effect)).filter
      (fun c => hasObs log effect c && minCauseLeMaxEffect log cause effect c)).Nodup :=
    (((nodup_casesWith log cause).filter _).filter _)
  simp only [test_cause_effect_pair, specCAndE]
  rw [← List.toFinset_card_of_nodup hnd2]
  congr 1
  ext x
  simp only [List.mem_toFinset, List.mem_filter, mem_casesWith, Finset.mem_filter,
    Finset.mem_inter, Bool.and_eq_true, decide_eq_true_eq, hasObs_iff]
  tauto

/-- C10: the division by the total trace count never divides by zero: when
`c_trues = 0` the test returns false before dividing, and when `c_trues > 0`
the log is nonempty, hence has at least one distinct case. -/
theorem no_div_by_zero_in_prima_facie (log : Log) (cause effect : ℕ) :
    ((test_cause_effect_pair log cause effect).2.1 = 0 →
      prima_facie_accepts log cause effect = false) ∧
    (0 < (test_cause_effect_pair log cause effect).2.1 → 1 ≤ numTraces log) := by
  constructor
  · intro h
    simp [prima_facie_accepts, is_prima_facie, h]
  · intro h
    have h' : 0 < (casesWith log cause).length := by
      simpa [test_cause_effect_pair] using h
    exact numTraces_pos_of_casesWith log cause h'

/-- Witness for C10 at concrete logs: a log with one event has one trace, and
an absent cause gives `c_trues = 0` and rejection. -/
theorem no_div_by_zero_in_prima_facie_witness :
    1 ≤ numTraces [⟨1, 0, 0⟩] ∧ prima_facie_accepts [⟨2, 0, 0⟩] 1 0 = false :=
  ⟨(no_div_by_zero_in_prima_facie [⟨1, 0, 0⟩] 0 0).2 (by decide),
   (no_div_by_zero_in_prima_facie [⟨2, 0, 0⟩] 1 0).1 (by decide)⟩

/-!
The loop of `calculate_probability_differences` visits each distinct x-case
once and accumulates four independent counters; each counter is embedded as
the length of the filter of the x-cases by its (per-case) condition.  Within
a case, restricting the rows to observations in `{cause, effect, x}` changes
neither the presence nor the timestamps of `cause`, `effect` or `x`, so the
conditions are stated against the whole log.
-/

/-- Counter `c_and_x`: x-cases where cause also occurs
(`np.any(obs == cause) and np.any(obs == x)`). -/
def countCAndX (log : Log) (cause x : ℕ) : ℕ :=
  ((casesWith log x).filter (fun c => hasObs log cause c && hasObs log x c)).length

/-- Counter `c_and_x_and_e`: of the `c_and_x` cases, those where effect occurs
and both `min(c_times) <= max(e_times)` and `min(x_times) <= max(e_times)`. -/
def countCAndXAndE (log : Log) (effect cause x : ℕ) : ℕ :=
  ((casesWith log x).filter (fun c =>
    hasObs log cause c && hasObs log x c && hasObs log effect c &&
      minCauseLeMaxEffect log cause effect c && minCauseLeMaxEffect log x effect c)).length

/-- Counter `not_c_and_x`: x-cases where cause does not occur
(`np.all(obs != cause) and np.any(obs == x)`). -/
def countNotCAndX (log : Log) (cause x : ℕ) : ℕ :=
  ((casesWith log x).filter (fun c => !hasObs log cause c && hasObs log x c)).length

/-- Counter `not_c_and_x_and_e`: of the `not_c_and_x` cases, those where
effect occurs and `min(x_times) <= max(e_times)`. -/
def countNotCAndXAndE (log : Log) (effect cause x : ℕ) : ℕ :=
  ((casesWith log x).filter (fun c =>
    !hasObs log cause c && hasObs log x c && hasObs log effect c &&
      minCauseLeMaxEffect log x effect c)).length

/-- `calculate_probability_differences`: returns 0 when either denominator
count is zero, otherwise `P(e | c ∧ x) − P(e | ¬c ∧ x)`. -/
def calculate_probability_differences (log : Log) (effect cause x : ℕ) : ℚ :=
  if countCAndX log cause x = 0 ∨ countNotCAndX log cause x = 0 then 0
  else (countCAndXAndE log effect cause x : ℚ) / (countCAndX log cause x : ℚ) -
    (countNotCAndXAndE log effect cause x : ℚ) / (countNotCAndX log cause x : ℚ)

/-- C4: the probability-difference term returns 0 whenever `c_and_x = 0` or
`not_c_and_x = 0`, and otherwise returns
`c_and_x_and_e / c_and_x − not_c_and_x_and_e / not_c_and_x`; being a total
function into ℚ it never raises on zero counts. -/
theorem probability_differences_total (log : Log) (effect cause x : ℕ) :
    (countCAndX log cause x = 0 ∨ countNotCAndX log cause x = 0 →
      calculate_probability_differences log effect cause x = 0) ∧
    (countCAndX log cause x ≠ 0 → countNotCAndX log cause x ≠ 0 →
      calculate_probability_differences log effect cause x =
        (countCAndXAndE log effect cause x : ℚ) / (countCAndX log cause x : ℚ) -
          (countNotCAndXAndE log effect cause x : ℚ) / (countNotCAndX log cause x : ℚ)) := by
  unfold calculate_probability_differences
  constructor
  · intro h
    rw [if_pos h]
  · intro h1 h2
    rw [if_neg (by tauto)]

/-- Witness for C4: an empty log gives zero counts and term 0; a two-case log
with cause, x and effect in case 1 and x and effect (no cause) in case 2 has
both denominators positive and yields the ratio difference. -/
theorem probability_differences_total_witness :
    calculate_probability_differences [] 1 0 2 = 0 ∧
    calculate_probability_differences
        [⟨1, 0, 0⟩, ⟨1, 2, 1⟩, ⟨1, 1, 2⟩, ⟨2, 2, 0⟩, ⟨2, 1, 1⟩] 1 0 2 =
      (countCAndXAndE [⟨1, 0, 0⟩, ⟨1, 2, 1⟩, ⟨1, 1, 2⟩, ⟨2, 2, 0⟩, ⟨2, 1, 1⟩] 1 0 2 : ℚ) /
          (countCAndX [⟨1, 0, 0⟩, ⟨1, 2, 1⟩, ⟨1, 1, 2⟩, ⟨2, 2, 0⟩, ⟨2, 1, 1⟩] 0 2 : ℚ) -
        (countNotCAndXAndE [⟨1, 0, 0⟩, ⟨1, 2, 1⟩, ⟨1, 1, 2⟩, ⟨2, 2, 0⟩, ⟨2, 1, 1⟩] 1 0 2 : ℚ) /
          (countNotCAndX [⟨1, 0, 0⟩, ⟨1, 2, 1⟩, ⟨1, 1, 2⟩, ⟨2, 2, 0⟩, ⟨2, 1, 1⟩] 0 2 : ℚ) :=
  ⟨(probability_differences_total [] 1 0 2).1 (Or.inl (by decide)),
   (probability_differences_total [⟨1, 0, 0⟩, ⟨1, 2, 1⟩, ⟨1, 1, 2⟩, ⟨2, 2, 0⟩, ⟨2, 1, 1⟩]
      1 0 2).2 (by decide) (by decide)⟩

/-- `get_overlap`, with the "make the earlier-starting window first" swap of
the source unfolded into the two branches: when `window2` starts strictly
earlier the roles are exchanged, then the result is `none` if the
earlier-starting window ends strictly before the other starts, else the pair
(later start, earlier-starting window's end).  Note the end of the
later-starting window is never consulted. -/
def get_overlap (window1 window2 : ℤ × ℤ) : Option (ℤ × ℤ) :=
  if window2.1 < window1.1 then
    if window2.2 < window1.1 then none else some (window1.1, window2.2)
  else
    if window1.2 < window2.1 then none else some (window2.1, window1.2)

/-- `get_only_x`: the part of whichever window sticks out, `none` exactly on
equal start points. -/
def get_only_x (window_c window_x : ℤ × ℤ) : Option (ℤ × ℤ) :=
  if window_c.1 < window_x.1 then some (window_c.2, window_x.2)
  else if window_x.1 < window_c.1 then some (window_x.1, window_c.1)
  else none

/-- C5 counterexample: `get_overlap` does not return the intersection for a
nested pair of windows (it returns the containing window's end), and it is
not symmetric when the two windows share a start point but differ in end. -/
theorem get_overlap_not_intersection :
    get_overlap ((0 : ℤ), 10) (2, 5) = some (2, 10) ∧
    get_overlap ((0 : ℤ), 10) (2, 5) ≠ some (max 0 2, min 10 5) ∧
    get_overlap ((0 : ℤ), 5) (0, 3) ≠ get_overlap ((0 : ℤ), 3) (0, 5) := by
  decide

/-- C5 amended: restricted to window pairs in which the earlier-starting
window ends no later than the other — in particular any two windows of equal
width, the only shape produced by the windowed engine — `get_overlap` is
symmetric, returns `none` exactly when one window ends strictly before the
other begins, and returns the intersection interval when the windows meet. -/
theorem get_overlap_intersection_of_aligned (r s p q : ℤ)
    (hw1 : r ≤ s) (hw2 : p ≤ q) (h1 : r ≤ p → s ≤ q) (h2 : p ≤ r → q ≤ s) :
    (get_overlap (r, s) (p, q) = get_overlap (p, q) (r, s)) ∧
    (get_overlap (r, s) (p, q) = none ↔ s < p ∨ q < r) ∧
    (p ≤ s → r ≤ q → get_overlap (r, s) (p, q) = some (max r p, min s q)) := by
  rcases lt_trichotomy p r with hpr | hpr | hpr
  · have hq : q ≤ s := h2 hpr.le
    have hps : p ≤ s := hpr.le.trans hw1
    refine ⟨?_, ?_, ?_⟩
    · simp [get_overlap, hpr, not_lt_of_gt hpr]
    · simp only [get_overlap, if_pos hpr]
      constructor
      · intro h
        by_cases hqr : q < r
        · exact Or.inr hqr
        · rw [if_neg hqr] at h
          cases h
      · intro h
        rcases h with h | h
        · omega
        · rw [if_pos h]
    · intro _ hrq
      have hqr : ¬ q < r := not_lt.mpr hrq
      simp only [get_overlap, if_pos hpr, if_neg hqr]
      rw [max_eq_left hpr.le, min_eq_right hq]
  · subst hpr
    have hsq : s ≤ q := h1 le_rfl
    have hqs : q ≤ s := h2 le_rfl
    have hq : s = q := le_antisymm hsq hqs
    subst hq
    refine ⟨rfl, ?_, ?_⟩
    · simp only [get_overlap, lt_irrefl, if_false, if_neg (not_lt.mpr hw1)]
      constructor
      · intro h
        cases h
      · intro h
        omega
    · intro _ _
      simp only [get_overlap, lt_irrefl, if_false, if_neg (not_lt.mpr hw1)]
      rw [max_self, min_self]
  · have hs : s ≤ q := h1 hpr.le
    have hrq : r ≤ q := hpr.le.trans hw2
    refine ⟨?_, ?_, ?_⟩
    · simp [get_overlap, hpr, not_lt_of_gt hpr]
    · simp only [get_overlap, if_neg (not_lt_of_gt hpr)]
      constructor
      · intro h
        by_cases hsp : s < p
        · exact Or.inl hsp
        · rw [if_neg hsp] at h
          cases h
      · intro h
        rcases h with h | h
        · rw [if_pos h]
        · omega
    · intro hps _
      have hsp : ¬ s < p := not_lt.mpr hps
      simp only [get_overlap, if_neg (not_lt_of_gt hpr), if_neg hsp]
      rw [max_eq_right hpr.le, min_eq_left hs]

/-- Witness for C5 amended: reproduces the spec example
`get_overlap((0,5),(3,8)) = (3,5)` through the amended theorem. -/
theorem get_overlap_intersection_witness :
    get_overlap ((0 : ℤ), 5) (3, 8) = some (max 0 3, min 5 8) :=
  (get_overlap_intersection_of_aligned 0 5 3 8 (by decide) (by decide)
    (by decide) (by decide)).2.2 (by decide) (by decide)

/-- C8: `get_only_x` is `none` exactly on equal start points, returns the
trailing part `(s, q)` of the x-window when the c-window starts first, the
leading part `(p, r)` when the x-window starts first, and satisfies the three
spec examples. -/
theorem get_only_x_exclusive_part (r s p q : ℤ) :
    (get_only_x (r, s) (p, q) = none ↔ r = p) ∧
    (r < p → get_only_x (r, s) (p, q) = some (s, q)) ∧
    (p < r → get_only_x (r, s) (p, q) = some (p, r)) ∧
    get_only_x ((0 : ℤ), 5) (0, 5) = none ∧
    get_only_x ((0 : ℤ), 5) (5, 9) = some (5, 9) ∧
    get_only_x ((5 : ℤ), 9) (0, 5) = some (0, 5) := by
  refine ⟨?_, ?_, ?_, by decide, by decide, by decide⟩
  · unfold get_only_x
    split_ifs with h h2 <;> simp <;> omega
  · intro h
    simp [get_only_x, h]
  · intro h
    unfold get_only_x
    rw [if_neg (by omega), if_pos h]

/-- Witness for C8: the c-window `(0,5)` starts before the x-window `(3,8)`,
so the trailing exclusive part `(5,8)` is returned. -/
theorem get_only_x_exclusive_part_witness :
    get_only_x ((0 : ℤ), 5) (3, 8) = some (5, 8) :=
  (get_only_x_exclusive_part 0 5 3 8).2.1 (by decide)

/-- `count_effect`: fold over the window entries exactly as the source loop
does; the inner loop with its break is the existence of one qualifying
effect timepoint, i.e. `List.any`. -/
def count_effect (e_trues : List (ℤ × List ℕ)) (windows : List ((ℤ × ℤ) × List ℕ)) : ℕ :=
  windows.foldl (fun res w =>
    if e_trues.any (fun p =>
        decide (w.1.1 ≤ p.1) && decide (p.1 ≤ w.1.2) &&
          !(p.2.filter (fun ec => ec ∈ w.2)).isEmpty)
      then res + 1 else res) 0

theorem foldl_count_eq_countP {α : Type} (p : α → Bool) (l : List α) (n : ℕ) :
    l.foldl (fun res a => if p a then res + 1 else res) n = n + l.countP p := by
  induction l generalizing n with
  | nil => simp
  | cons a as ih =>
    simp only [List.foldl_cons, List.countP_cons, ih]
    by_cases h : p a = true
    · rw [if_pos h]
      simp [h]
      omega
    · rw [if_neg h]
      simp [h]

/-- C9: `count_effect` counts, at most once each, the entries that contain at
least one effect timepoint inside the closed interval whose case set meets
the entry's case set; consequently the result never exceeds the number of
entries. -/
theorem count_effect_counts_entries (e_trues : List (ℤ × List ℕ))
    (windows : List ((ℤ × ℤ) × List ℕ)) :
    count_effect e_trues windows =
      windows.countP (fun w => decide (∃ p ∈ e_trues,
        w.1.1 ≤ p.1 ∧ p.1 ≤ w.1.2 ∧ ∃ ec ∈ p.2, ec ∈ w.2)) ∧
    count_effect e_trues windows ≤ windows.length := by
  have hpt : ∀ w : (ℤ × ℤ) × List ℕ,
      (e_trues.any (fun p =>
        decide (w.1.1 ≤ p.1) && decide (p.1 ≤ w.1.2) &&
          !(p.2.filter (fun ec => ec ∈ w.2)).isEmpty))
        = decide (∃ p ∈ e_trues,
            w.1.1 ≤ p.1 ∧ p.1 ≤ w.1.2 ∧ ∃ ec ∈ p.2, ec ∈ w.2) := by
    intro w
    rcases hb : decide (∃ p ∈ e_trues, w.1.1 ≤ p.1 ∧ p.1 ≤ w.1.2 ∧ ∃ ec ∈ p.2, ec ∈ w.2) with _ | _
    · rw [decide_eq_false_iff_not] at hb
      rw [Bool.eq_false_iff]
      intro hany
      apply hb
      rw [List.any_eq_true] at hany
      obtain ⟨p, hp, hcond⟩ := hany
      simp only [Bool.and_eq_true, decide_eq_true_eq, Bool.not_eq_true',
        List.isEmpty_eq_false_iff_exists_mem] at hcond
      obtain ⟨⟨h1, h2⟩, ⟨ec, hec⟩⟩ := hcond
      rw [List.mem_filter] at hec
      exact ⟨p, hp, h1, h2, ec, hec.1, by simpa using hec.2⟩
    · rw [decide_eq_true_eq] at hb
      obtain ⟨p, hp, h1, h2, ec, hec1, hec2⟩ := hb
      rw [List.any_eq_true]
      refine ⟨p, hp, ?_⟩
      simp only [Bool.and_eq_true, decide_eq_true_eq, Bool.not_eq_true',
        List.isEmpty_eq_false_iff_exists_mem]
      exact ⟨⟨h1, h2⟩, ⟨ec, List.mem_filter.mpr ⟨hec1, by simpa using hec2⟩⟩⟩
  constructor
  · rw [count_effect, foldl_count_eq_countP, Nat.zero_add]
    exact List.countP_congr (fun w _ => by rw [hpt w])
  · rw [count_effect, foldl_count_eq_countP, Nat.zero_add]
    exact List.countP_le_length _

/-- The prima-facie dictionary `self.prima_facie`: an association list from
effect label to the list of accepted causes, in insertion order. -/
abbrev PFMap := List (ℕ × List ℕ)

/-- Dictionary access `self.prima_facie[effect]`; `none` models the KeyError
raised on a missing key. -/
def pfLookup : PFMap → ℕ → Option (List ℕ)
  | [], _ => none
  | (k, v) :: rest, e => if k = e then some v else pfLookup rest e

/-- The accumulation step of `test_for_prima_facie`: append the cause to the
effect's entry, creating the entry if absent (appended at the end, matching
dict insertion order). -/
def pfInsert : PFMap → ℕ → ℕ → PFMap
  | [], e, c => [(e, [c])]
  | (k, v) :: rest, e, c =>
    if k = e then (k, v ++ [c]) :: rest else (k, v) :: pfInsert rest e c

/-- Membership of a cause in the prima-facie entry of an effect. -/
def pfMem (m : PFMap) (effect cause : ℕ) : Prop :=
  ∃ l, pfLookup m effect = some l ∧ cause ∈ l

/-- `test_for_prima_facie`: fold over the hypothesis list, adding each
accepted `(cause, effect)` to the map; the map being threaded models the
mutable `self.prima_facie` instance field. -/
def test_for_prima_facie (log : Log) (hyps : List (ℕ × ℕ)) (m0 : PFMap) : PFMap :=
  hyps.foldl (fun m h =>
    if prima_facie_accepts log h.1 h.2 then pfInsert m h.2 h.1 else m) m0

theorem pfLookup_pfInsert (m : PFMap) (e c e' : ℕ) :
    pfLookup (pfInsert m e c) e' =
      if e' = e then some (((pfLookup m e).getD []) ++ [c]) else pfLookup m e' := by
  induction m with
  | nil =>
    by_cases h : e = e'
    · subst h
      simp [pfInsert, pfLookup]
    · have h2 : ¬ e' = e := fun hh => h hh.symm
      simp only [pfInsert, pfLookup, if_neg h, if_neg h2]
  | cons kv rest ih =>
    obtain ⟨k, v⟩ := kv
    by_cases hk : k = e
    · subst hk
      by_cases h' : k = e'
      · subst h'
        simp [pfInsert, pfLookup]
      · have h2 : ¬ e' = k := fun hh => h' hh.symm
        simp only [pfInsert, pfLookup, if_pos rfl, if_neg h', if_neg h2]
    · by_cases h' : k = e'
      · subst h'
        have h2 : ¬ k = e := hk
        simp [pfInsert, pfLookup, if_neg hk, if_neg h2]
      · simp [pfInsert, pfLookup, if_neg hk, if_neg h', ih]

theorem pfMem_getD (m : PFMap) (e c : ℕ) :
    pfMem m e c ↔ c ∈ (pfLookup m e).getD [] := by
  cases h : pfLookup m e with
  | none => simp [pfMem, h]
  | some v => simp [pfMem, h]

theorem pfMem_pfInsert (m : PFMap) (e c e' c' : ℕ) :
    pfMem (pfInsert m e c) e' c' ↔ pfMem m e' c' ∨ (e' = e ∧ c' = c) := by
  by_cases h : e' = e
  · subst h
    rw [pfMem_getD, pfLookup_pfInsert, if_pos rfl, pfMem_getD]
    simp
  · rw [pfMem_getD, pfLookup_pfInsert, if_neg h, ← pfMem_getD]
    simp [h]

theorem pfMem_test_for_prima_facie (log : Log) (hyps : List (ℕ × ℕ)) (m0 : PFMap)
    (e c : ℕ) :
    pfMem (test_for_prima_facie log hyps m0) e c ↔
      pfMem m0 e c ∨ ((c, e) ∈ hyps ∧ prima_facie_accepts log c e = true) := by
  induction hyps generalizing m0 with
  | nil => simp [test_for_prima_facie]
  | cons h hs ih =>
    obtain ⟨h1, h2⟩ := h
    rw [show test_for_prima_facie log ((h1, h2) :: hs) m0 =
        test_for_prima_facie log hs
          (if prima_facie_accepts log h1 h2 then pfInsert m0 h2 h1 else m0) from rfl, ih]
    by_cases ha : prima_facie_accepts log h1 h2 = true
    · rw [if_pos ha, pfMem_pfInsert]
      simp only [List.mem_cons, Prod.mk.injEq]
      constructor
      · rintro ((hm | ⟨he, hc⟩) | ⟨hmem, hacc⟩)
        · exact Or.inl hm
        · subst he
          subst hc
          exact Or.inr ⟨Or.inl ⟨rfl, rfl⟩, ha⟩
        · exact Or.inr ⟨Or.inr hmem, hacc⟩
      · rintro (hm | ⟨(⟨hc, he⟩ | hmem), hacc⟩)
        · exact Or.inl (Or.inl hm)
        · subst hc
          subst he
          exact Or.inl (Or.inr ⟨rfl, rfl⟩)
        · exact Or.inr ⟨hmem, hacc⟩
    · rw [if_neg ha]
      simp only [List.mem_cons, Prod.mk.injEq]
      constructor
      · rintro (hm | ⟨hmem, hacc⟩)
        · exact Or.inl hm
        · exact Or.inr ⟨Or.inr hmem, hacc⟩
      · rintro (hm | ⟨(⟨hc, he⟩ | hmem), hacc⟩)
        · exact Or.inl hm
        · subst hc
          subst he
          exact absurd hacc ha
        · exact Or.inr ⟨hmem, hacc⟩

/-- C6: running the prima-facie test a second time on the same log and the
same hypothesis list (threading the map produced by the first run, as the
mutating method does) leaves the membership of causes per effect unchanged. -/
theorem prima_facie_test_rerun_membership_stable (log : Log) (hyps : List (ℕ × ℕ))
    (e c : ℕ) :
    pfMem (test_for_prima_facie log hyps (test_for_prima_facie log hyps [])) e c ↔
      pfMem (test_for_prima_facie log hyps []) e c := by
  simp only [pfMem_test_for_prima_facie]
  have h0 : ¬ pfMem ([] : PFMap) e c := by
    simp [pfMem, pfLookup]
  tauto

/-- `get_epsilon_average`: average of the probability differences over the
other recorded causes of the effect, `none` (Python `None`) when there is no
other cause, and an error (Python KeyError) when the effect is not a key of
the map. -/
def get_epsilon_average (log : Log) (pf : PFMap) (effect cause : ℕ) :
    Except Unit (Option ℚ) :=
  match pfLookup pf effect with
  | none => Except.error ()
  | some l =>
    let other_causes := l.filter (fun c => c ≠ cause)
    if other_causes.length ≠ 0 then
      Except.ok (some ((other_causes.map
        (fun x => calculate_probability_differences log effect cause x)).sum /
          (other_causes.length : ℚ)))
    else Except.ok none

theorem get_epsilon_average_eq_of_lookup (log : Log) (pf : PFMap) (effect cause : ℕ)
    (l : List ℕ) (hl : pfLookup pf effect = some l) :
    get_epsilon_average log pf effect cause =
      if (l.filter (fun c => c ≠ cause)).length ≠ 0 then
        Except.ok (some (((l.filter (fun c => c ≠ cause)).map
            (fun x => calculate_probability_differences log effect cause x)).sum /
          ((l.filter (fun c => c ≠ cause)).length : ℚ)))
      else Except.ok none := by
  unfold get_epsilon_average
  rw [hl]

theorem get_epsilon_average_eq_error_of_none (log : Log) (pf : PFMap)
    (effect cause : ℕ) (hl : pfLookup pf effect = none) :
    get_epsilon_average log pf effect cause = Except.error () := by
  unfold get_epsilon_average
  rw [hl]

/-- C3: the epsilon score is the undefined marker (never the number 0)
exactly when the effect's prima-facie entry contains no cause other than the
given one; otherwise it is the arithmetic mean of the probability
differences over the other causes. -/
theorem epsilon_undefined_iff_no_other_cause (log : Log) (pf : PFMap)
    (effect cause : ℕ) (l : List ℕ)
    (hl : pfLookup pf effect = some l) (hnd : l.Nodup) :
    (get_epsilon_average log pf effect cause = Except.ok none ↔
      l.toFinset.erase cause = ∅) ∧
    (l.toFinset.erase cause ≠ ∅ →
      get_epsilon_average log pf effect cause =
        Except.ok (some (((l.toFinset.erase cause).sum
            (fun x => calculate_probability_differences log effect cause x)) /
          ((l.toFinset.erase cause).card : ℚ)))) := by
  have hoc : (l.filter (fun c => c ≠ cause)).toFinset = l.toFinset.erase cause := by
    ext a
    simp [List.mem_filter, Finset.mem_erase, and_comm]
  have hndoc : (l.filter (fun c => c ≠ cause)).Nodup := hnd.filter _
  rw [get_epsilon_average_eq_of_lookup log pf effect cause l hl]
  constructor
  · constructor
    · intro hok
      by_cases h : (l.filter (fun c => c ≠ cause)).length = 0
      · rw [← hoc, List.toFinset_eq_empty_iff]
        exact List.length_eq_zero.mp h
      · exfalso
        rw [if_pos h] at hok
        cases hok
    · intro hemp
      have h0 : (l.filter (fun c => c ≠ cause)).length = 0 := by
        rw [List.length_eq_zero, ← List.toFinset_eq_empty_iff, hoc]
        exact hemp
      rw [if_neg (fun hh => hh h0)]
  · intro hne
    have h : (l.filter (fun c => c ≠ cause)).length ≠ 0 := by
      intro h0
      apply hne
      rw [← hoc, List.toFinset_eq_empty_iff]
      exact List.length_eq_zero.mp h0
    rw [if_pos h, ← hoc, List.sum_toFinset _ hndoc, List.toFinset_card_of_nodup hndoc]

/-- Witness for C3: with map {1 ↦ [0, 2]}, effect 1 and cause 0 have the
other cause 2, so the score is the (one-element) average, and the
undefined-iff equivalence holds concretely. -/
theorem epsilon_undefined_iff_no_other_cause_witness :
    (get_epsilon_average [] [(1, [0, 2])] 1 0 = Except.ok none ↔
      ([0, 2] : List ℕ).toFinset.erase 0 = ∅) ∧
    get_epsilon_average [] [(1, [0, 2])] 1 0 =
      Except.ok (some (((([0, 2] : List ℕ).toFinset.erase 0).sum
          (fun x => calculate_probability_differences [] 1 0 x)) /
        ((([0, 2] : List ℕ).toFinset.erase 0).card : ℚ))) :=
  ⟨(epsilon_undefined_iff_no_other_cause [] [(1, [0, 2])] 1 0 [0, 2] rfl (by decide)).1,
   (epsilon_undefined_iff_no_other_cause [] [(1, [0, 2])] 1 0 [0, 2] rfl (by decide)).2
     (by decide)⟩

/-- C7 counterexample: with prima-facie map {0 ↦ [1]}, the cause 2 is not a
member of the entry for effect 0, yet the evaluation does not fail: it
returns a numeric score (the claimed contract violation goes undetected). -/
theorem epsilon_no_failure_on_nonmember_cause :
    (2 : ℕ) ∉ [1] ∧
    get_epsilon_average [] [(0, [1])] 0 2 = Except.ok (some 0) := by
  refine ⟨by decide, ?_⟩
  rw [get_epsilon_average_eq_of_lookup [] [(0, [1])] 0 2 [1] rfl]
  have hcpd : calculate_probability_differences [] 0 2 1 = 0 := by
    unfold calculate_probability_differences
    rw [if_pos (Or.inl (by decide))]
  have hf : ([1] : List ℕ).filter (fun c => c ≠ 2) = [1] := by decide
  rw [hf]
  simp [hcpd]

/-- C7 amended: the epsilon evaluation fails exactly when the effect is not a
key of the prima-facie map (the KeyError of the dict access); whenever the
effect is a key it returns a value — a number or the undefined marker — and
never throws, regardless of whether the cause belongs to the entry. -/
theorem epsilon_fails_iff_effect_unknown (log : Log) (pf : PFMap)
    (effect cause : ℕ) :
    (get_epsilon_average log pf effect cause = Except.error () ↔
      pfLookup pf effect = none) ∧
    (∀ l, pfLookup pf effect = some l →
      ∃ v, get_epsilon_average log pf effect cause = Except.ok v) := by
  cases h : pfLookup pf effect with
  | none =>
    constructor
    · rw [get_epsilon_average_eq_error_of_none log pf effect cause h]
      simp
    · intro l hl
      simp at hl
  | some l =>
    constructor
    · rw [get_epsilon_average_eq_of_lookup log pf effect cause l h]
      constructor
      · intro hbad
        exfalso
        revert hbad
        split_ifs <;> intro hbad <;> cases hbad
      · intro hnone
        simp at hnone
    · intro l' hl'
      rw [get_epsilon_average_eq_of_lookup log pf effect cause l h]
      split_ifs
      · exact ⟨_, rfl⟩
      · exact ⟨_, rfl⟩

/-- Witness for C7 amended: effect 0 is a key of {0 ↦ [1]}, so the
evaluation returns a value. -/
theorem epsilon_fails_iff_effect_unknown_witness :
    ∃ v, get_epsilon_average [] [(0, [1])] 0 1 = Except.ok v :=
  (epsilon_fails_iff_effect_unknown [] [(0, [1])] 0 1).2 [1] rfl
